import Mathlib

/-!
Shallow embedding of the backend playlist-store logic of
`src/local-playlist-manager/index.ts` (the `ipc.handle` registrations of the
plugin backend), together with theorems settling the specification claims.

Modelling conventions, used throughout:
* JavaScript strings are `String`; character-level operations are carried out
  on `String.data` (`List Char`).  The ASCII fragment of `toLowerCase` /
  `trim` is modelled, which is the fragment all claims exercise.
* `JSON.parse` composed with `JSON.stringify` is treated as the identity on a
  `Json` value tree: files hold `Json` values, and the typed views
  `playlistToJson` / `playlistOfJson` (resp. the song versions) model the
  serialisation boundary of the untyped JavaScript records.
* The playlists directory is a finite association list from file name to the
  `Json` file content (`Store`); `fs.writeFileSync` is insert-or-replace,
  `fs.readdirSync` enumerates it in order.
* The current wall-clock time (`new Date().toISOString()`) is passed in as an
  explicit `now : String` argument.
* A thrown JavaScript `TypeError` (property access on `undefined`) is
  modelled by `Except.error "TypeError: Cannot read properties of undefined"`,
  which the surrounding `try`/`catch` turns into a failure result.
-/

namespace LocalPlaylistManager

/-- One track reference, from the `Song` interface (index.ts lines 7-13). -/
structure Song where
  videoId : String
  title : String
  artist : String
  album : Option String := none
  duration : Option String := none
deriving DecidableEq, Repr

/-- A named ordered collection of songs, from the `Playlist` interface
(index.ts lines 15-20). -/
structure Playlist where
  name : String
  songs : List Song
  created : String
  modified : String
deriving DecidableEq, Repr

/-- The `{ success, message }` record every ipc handler resolves with. -/
structure IpcResult where
  success : Bool
  message : String
deriving DecidableEq, Repr

/-- JavaScript truthiness-based defaulting for strings: `s || d`
(the empty string is the only falsy string). -/
def jsOr (s d : String) : String := if s = "" then d else s

/-- The whitespace characters stripped by `String.prototype.trim`
(ASCII fragment). -/
def isJsSpace (c : Char) : Bool := c = ' ' || c = '\t' || c = '\n' || c = '\r'

/-- Strip leading and trailing whitespace from a character list. -/
def trimChars (l : List Char) : List Char :=
  ((l.dropWhile isJsSpace).reverse.dropWhile isJsSpace).reverse

/-- `s.trim()`. -/
def jsTrim (s : String) : String := ⟨trimChars s.data⟩

/-- Prepend a character to the first group of a split result
(used by the split functions below). -/
def consHead (c : Char) : List (List Char) → List (List Char)
  | [] => [[c]]
  | g :: gs => (c :: g) :: gs

/-- `s.split(sep)` for a one-character separator, on character lists. -/
def splitOnChar (sep : Char) : List Char → List (List Char)
  | [] => [[]]
  | c :: rest =>
    if c = sep then [] :: splitOnChar sep rest
    else consHead c (splitOnChar sep rest)

/-- `s.split(sep)` for a one-character separator. -/
def jsSplitChar (sep : Char) (s : String) : List String :=
  (splitOnChar sep s.data).map fun l => (⟨l⟩ : String)

/-- `arr.join(sep)`. -/
def joinSep (sep : String) : List String → String
  | [] => ""
  | [x] => x
  | x :: y :: rest => x ++ sep ++ joinSep sep (y :: rest)

/-- ASCII fragment of `String.prototype.toLowerCase`, character by
character: the basic latin capitals map to their lower-case forms and every
other character is unchanged. -/
def jsLowerChar (c : Char) : Char :=
  if c.isUpper then Char.ofNat (c.toNat + 32) else c

/-- `s.toLowerCase()` (ASCII fragment). -/
def jsToLower (s : String) : String := ⟨s.data.map jsLowerChar⟩

/-- One character of `name.replace(/[^a-z0-9]/gi, '_')`: characters outside
`[a-zA-Z0-9]` become an underscore. -/
def sanitizeChar (c : Char) : Char := if c.isAlphanum then c else '_'

/-- `name.replace(/[^a-z0-9]/gi, '_')`. -/
def sanitizeName (name : String) : String := ⟨name.data.map sanitizeChar⟩

/-- The storage file name computed by the `save-playlist` handler
(index.ts line 64): replace characters outside `[a-zA-Z0-9]` by `_`,
lower-case the result, append `.json`. -/
def saveFileName (name : String) : String :=
  jsToLower (sanitizeName name) ++ ".json"

/-- The storage file name computed by the `delete-playlist` handler
(index.ts line 82); textually the same expression as in `save-playlist`. -/
def deleteFileName (name : String) : String :=
  jsToLower (sanitizeName name) ++ ".json"

/-- The storage file name computed by the `import-playlist-file` handler
(index.ts line 195); textually the same expression as in `save-playlist`. -/
def importFileName (name : String) : String :=
  jsToLower (sanitizeName name) ++ ".json"

/-- The file-name mapping as the specification words it: the name is
lower-cased first, and then every character outside `[a-zA-Z0-9]` is replaced
by `_`, before appending `.json`. -/
def specFileName (name : String) : String :=
  sanitizeName (jsToLower name) ++ ".json"

theorem isUpper_toNat {c : Char} (h : c.isUpper = true) :
    65 ≤ c.toNat ∧ c.toNat ≤ 90 := by
  simp only [Char.isUpper, Bool.and_eq_true, decide_eq_true_eq] at h
  obtain ⟨h1, h2⟩ := h
  exact ⟨UInt32.le_toNat_of_le (by decide) h1, UInt32.toNat_le_of_le (by decide) h2⟩

theorem toNat_ofNat_valid {n : Nat} (h : n.isValidChar) :
    (Char.ofNat n).toNat = n := by
  simp [Char.ofNat, dif_pos h, Char.ofNatAux, Char.toNat, UInt32.toNat]

theorem isAlphanum_jsLowerChar_of_isUpper {c : Char} (h : c.isUpper = true) :
    (jsLowerChar c).isAlphanum = true := by
  obtain ⟨h1, h2⟩ := isUpper_toNat h
  have hvalid : (c.toNat + 32).isValidChar := Or.inl (by omega)
  have hn : (Char.ofNat (c.toNat + 32)).toNat = c.toNat + 32 := toNat_ofNat_valid hvalid
  rw [jsLowerChar, if_pos h]
  have hlow : (Char.ofNat (c.toNat + 32)).isLower = true := by
    simp only [Char.isLower, Bool.and_eq_true, decide_eq_true_eq]
    constructor
    · show (97 : UInt32) ≤ _
      rw [UInt32.le_def, BitVec.le_def]
      have h97 : ((97 : UInt32)).toBitVec.toNat = 97 := by decide
      rw [h97]
      show 97 ≤ (Char.ofNat (c.toNat + 32)).toNat
      omega
    · show _ ≤ (122 : UInt32)
      rw [UInt32.le_def, BitVec.le_def]
      have h122 : ((122 : UInt32)).toBitVec.toNat = 122 := by decide
      rw [h122]
      show (Char.ofNat (c.toNat + 32)).toNat ≤ 122
      omega
  simp [Char.isAlphanum, Char.isAlpha, hlow]

theorem jsLowerChar_of_not_isUpper {c : Char} (h : c.isUpper = false) :
    jsLowerChar c = c := by
  rw [jsLowerChar, if_neg]
  simp [h]

theorem isAlphanum_of_isUpper {c : Char} (h : c.isUpper = true) :
    c.isAlphanum = true := by
  simp [Char.isAlphanum, Char.isAlpha, h]

theorem sanitize_lower_comm (c : Char) :
    jsLowerChar (sanitizeChar c) = sanitizeChar (jsLowerChar c) := by
  cases hu : c.isUpper with
  | true =>
    rw [sanitizeChar, if_pos (isAlphanum_of_isUpper hu),
      sanitizeChar, if_pos (isAlphanum_jsLowerChar_of_isUpper hu)]
  | false =>
    have h1 : jsLowerChar c = c := jsLowerChar_of_not_isUpper hu
    cases ha : c.isAlphanum with
    | true => simp [sanitizeChar, ha, h1]
    | false =>
      have h2 : sanitizeChar c = '_' := by simp [sanitizeChar, ha]
      rw [h2, h1, h2]
      decide

/-- C2: the storage file name used by save, delete and import is the name
lower-cased with every character outside `[a-zA-Z0-9]` replaced by `_`,
followed by `.json`; the mapping is one pure function and the three handlers
agree on it. -/
theorem c2_fileName_agrees (name : String) :
    saveFileName name = specFileName name ∧
    deleteFileName name = specFileName name ∧
    importFileName name = specFileName name := by
  have key : jsToLower (sanitizeName name) = sanitizeName (jsToLower name) := by
    show (⟨(name.data.map sanitizeChar).map jsLowerChar⟩ : String) =
      ⟨(name.data.map jsLowerChar).map sanitizeChar⟩
    have : (name.data.map sanitizeChar).map jsLowerChar =
        (name.data.map jsLowerChar).map sanitizeChar := by
      rw [List.map_map, List.map_map]
      exact List.map_congr_left fun c _ => sanitize_lower_comm c
    rw [this]
  refine ⟨?_, ?_, ?_⟩ <;> simp [saveFileName, deleteFileName, importFileName,
    specFileName, key]

/-- C3 counterexample: sanitising `"My Playlist!"` does not give
`"my_playlist.json"` (the `!` also becomes an underscore). -/
theorem c3_counterexample :
    saveFileName "My Playlist!" ≠ "my_playlist.json" := by decide

/-- C3 (amended): the names `"My Playlist!"` and `"my_playlist "` are
distinct yet both sanitise to exactly `"my_playlist_.json"`, so they collide
on that file name. -/
theorem c3_collision :
    saveFileName "My Playlist!" = "my_playlist_.json" ∧
    saveFileName "my_playlist " = "my_playlist_.json" ∧
    ("My Playlist!" : String) ≠ "my_playlist " := by
  refine ⟨by decide, by decide, by decide⟩

/-! ## JSON values and the serialisation boundary -/

/-- A JSON value tree, as produced by `JSON.parse` / consumed by
`JSON.stringify`.  Only the shapes the playlist records use are modelled. -/
inductive Json where
  | str (s : String)
  | arr (elems : List Json)
  | obj (fields : List (String × Json))

/-- Property lookup on a parsed JSON object. -/
def jLookup (k : String) : List (String × Json) → Option Json
  | [] => none
  | (k2, v) :: rest => if k2 = k then some v else jLookup k rest

/-- Read a string-valued property, with a default for a missing or
non-string one (the typed view of an untyped property access). -/
def jGetStr (j : Json) (k : String) (d : String) : String :=
  match j with
  | .obj fields =>
    match jLookup k fields with
    | some (.str s) => s
    | _ => d
  | _ => d

/-- Read an optional string-valued property. -/
def jGetStrOpt (j : Json) (k : String) : Option String :=
  match j with
  | .obj fields =>
    match jLookup k fields with
    | some (.str s) => some s
    | _ => none
  | _ => none

/-- `JSON.stringify` of a `Song` record: the `album` and `duration` keys are
omitted when the fields are `undefined`. -/
def songToJson (s : Song) : Json :=
  .obj ([("videoId", Json.str s.videoId), ("title", Json.str s.title),
         ("artist", Json.str s.artist)]
    ++ (match s.album with | some a => [("album", Json.str a)] | none => [])
    ++ (match s.duration with | some d => [("duration", Json.str d)] | none => []))

/-- The typed view of a parsed song object. -/
def songOfJson (j : Json) : Song :=
  { videoId := jGetStr j "videoId" "",
    title := jGetStr j "title" "",
    artist := jGetStr j "artist" "",
    album := jGetStrOpt j "album",
    duration := jGetStrOpt j "duration" }

/-- `data.songs || []` followed by the typed view of each element: a missing
or non-array `songs` property collapses to the empty sequence. -/
def jGetSongs (j : Json) : List Song :=
  match j with
  | .obj fields =>
    match jLookup "songs" fields with
    | some (.arr l) => l.map songOfJson
    | _ => []
  | _ => []

/-- `JSON.stringify` of a full `Playlist` record. -/
def playlistToJson (p : Playlist) : Json :=
  .obj [("name", Json.str p.name), ("songs", Json.arr (p.songs.map songToJson)),
        ("created", Json.str p.created), ("modified", Json.str p.modified)]

/-- The typed view of a parsed playlist record, as read back by
`get-local-playlists` (index.ts line 51). -/
def playlistOfJson (j : Json) : Playlist :=
  { name := jGetStr j "name" "",
    songs := jGetSongs j,
    created := jGetStr j "created" "",
    modified := jGetStr j "modified" "" }

theorem songOfJson_songToJson (s : Song) : songOfJson (songToJson s) = s := by
  cases s with
  | mk v t a al d => cases al <;> cases d <;> rfl

theorem map_song_roundtrip (l : List Song) :
    (l.map songToJson).map songOfJson = l := by
  induction l with
  | nil => rfl
  | cons hd tl ih =>
    simp only [List.map_cons]
    rw [songOfJson_songToJson hd, ih]

theorem playlistOfJson_playlistToJson (p : Playlist) :
    playlistOfJson (playlistToJson p) = p := by
  cases p with
  | mk n s c m =>
    show Playlist.mk n ((s.map songToJson).map songOfJson) c m = Playlist.mk n s c m
    rw [map_song_roundtrip s]

/-! ## The playlists directory and the save / list / delete handlers -/

/-- The playlists directory: file name to parsed file content, in directory
order. -/
abbrev Store := List (String × Json)

/-- `fs.existsSync` + `fs.readFileSync`, as one association lookup. -/
def storeLookup (k : String) : Store → Option Json
  | [] => none
  | (k2, v) :: rest => if k2 = k then some v else storeLookup k rest

/-- `fs.writeFileSync`: overwrite the file if present, create it
otherwise. -/
def storeInsert (k : String) (v : Json) : Store → Store
  | [] => [(k, v)]
  | (k2, v2) :: rest =>
    if k2 = k then (k, v) :: rest else (k2, v2) :: storeInsert k v rest

/-- `fs.unlinkSync`. -/
def storeRemove (k : String) : Store → Store :=
  List.filter fun kv => kv.1 != k

/-- `file.endsWith('.json')`-style suffix test. -/
def jsEndsWith (s suffix : String) : Bool :=
  suffix.data.isSuffixOf s.data

/-- The record actually written by `save-playlist` (index.ts lines 67-70):
`modified` is refreshed to the current time and an absent (falsy, i.e. empty)
`created` is initialised from it. -/
def savedRecord (p : Playlist) (now : String) : Playlist :=
  { p with modified := now, created := if p.created = "" then now else p.created }

/-- The `save-playlist` handler (index.ts lines 62-78), success path. -/
def savePlaylist (p : Playlist) (now : String) (st : Store) : IpcResult × Store :=
  (⟨true, "Playlist saved successfully"⟩,
   storeInsert (saveFileName p.name) (playlistToJson (savedRecord p now)) st)

/-- The `get-local-playlists` handler (index.ts lines 42-60), success path:
parse every file whose name ends in `.json`, in directory order. -/
def getLocalPlaylists (st : Store) : List Playlist :=
  st.filterMap fun kv =>
    if jsEndsWith kv.1 ".json" then some (playlistOfJson kv.2) else none

/-- The `delete-playlist` handler (index.ts lines 80-95). -/
def deletePlaylist (name : String) (st : Store) : IpcResult × Store :=
  match storeLookup (deleteFileName name) st with
  | some _ => (⟨true, "Playlist deleted successfully"⟩,
               storeRemove (deleteFileName name) st)
  | none => (⟨false, "Playlist not found"⟩, st)

theorem jsEndsWith_append (x y : String) : jsEndsWith (x ++ y) y = true := by
  simp [jsEndsWith, String.data_append]

theorem mem_storeInsert (k : String) (v : Json) (st : Store) :
    (k, v) ∈ storeInsert k v st := by
  induction st with
  | nil => exact List.mem_singleton.mpr rfl
  | cons hd tl ih =>
    obtain ⟨k2, v2⟩ := hd
    rw [storeInsert]
    by_cases h : k2 = k
    · rw [if_pos h]
      exact List.mem_cons_self _ _
    · rw [if_neg h]
      exact List.mem_cons_of_mem _ ih

/-- C1 counterexample: for the playlist `{name := "a", songs := [], created
:= "", modified := ""}` (empty `created`), saving and listing yields no
playlist whose `created` still equals the original empty string — save
reassigns `created` from the fresh `modified` timestamp. -/
theorem c1_counterexample :
    (("a" : String) ≠ "") ∧
    ¬ ∃ q ∈ getLocalPlaylists
        (savePlaylist ⟨"a", [], "", ""⟩ "2024-01-01T00:00:00.000Z" []).2,
        q.name = "a" ∧ q.songs = ([] : List Song) ∧ q.created = "" := by
  exact ⟨by decide, by decide⟩

/-- C1 (amended): for every playlist with non-empty `name` and non-empty
`created`, `save` followed by `listAll` yields a collection containing a
playlist whose `name`, `songs` (in order) and `created` equal the input's
(`modified` is reassigned by save; an empty `created` would also be
reassigned). -/
theorem c1_save_listAll (p : Playlist) (now : String) (st : Store)
    (_hname : p.name ≠ "") (hcreated : p.created ≠ "") :
    ∃ q ∈ getLocalPlaylists (savePlaylist p now st).2,
      q.name = p.name ∧ q.songs = p.songs ∧ q.created = p.created := by
  refine ⟨playlistOfJson (playlistToJson (savedRecord p now)), ?_, ?_⟩
  · apply List.mem_filterMap.mpr
    refine ⟨(saveFileName p.name, playlistToJson (savedRecord p now)), ?_, ?_⟩
    · exact mem_storeInsert _ _ st
    · rw [if_pos]
      rw [saveFileName]
      exact jsEndsWith_append _ _
  · rw [playlistOfJson_playlistToJson]
    refine ⟨rfl, rfl, ?_⟩
    show (if p.created = "" then now else p.created) = p.created
    rw [if_neg hcreated]

/-- C1 witness: a concrete instantiation of the amended save/list
round-trip. -/
theorem c1_witness :
    ∃ q ∈ getLocalPlaylists
        (savePlaylist ⟨"Road Trip", [⟨"id1", "T", "A", none, none⟩],
          "2024-01-01T00:00:00.000Z", ""⟩ "2024-02-02T00:00:00.000Z" []).2,
      q.name = "Road Trip" ∧ q.songs = [⟨"id1", "T", "A", none, none⟩] ∧
      q.created = "2024-01-01T00:00:00.000Z" :=
  c1_save_listAll _ _ _ (by decide) (by decide)

/-- C9: deleting a playlist whose derived file name has no backing file
returns the failure result with the distinguished "Playlist not found"
message and leaves the storage directory unchanged. -/
theorem c9_delete_missing (name : String) (st : Store)
    (h : storeLookup (deleteFileName name) st = none) :
    deletePlaylist name st = (⟨false, "Playlist not found"⟩, st) := by
  rw [deletePlaylist, h]

/-- C9 witness: deleting from an empty directory. -/
theorem c9_witness :
    deletePlaylist "nosuch" [] = (⟨false, "Playlist not found"⟩, ([] : Store)) :=
  c9_delete_missing "nosuch" [] rfl

/-! ## JSON export and import -/

/-- The `json` branch of `export-playlist-file` (index.ts lines 229-230):
the file receives `JSON.stringify(playlist, null, 2)`, i.e. the full record
(pretty-printing is invisible at the value level). -/
def exportJson (p : Playlist) : Json := playlistToJson p

/-- The `.json` branch of `import-playlist-file` (index.ts lines 117-124):
falsy-defaulting reconstruction of a playlist from a parsed file. -/
def importJson (data : Json) (fallbackName now : String) : Playlist :=
  { name := jsOr (jGetStr data "name" "") fallbackName,
    songs := jGetSongs data,
    created := jsOr (jGetStr data "created" "") now,
    modified := now }

/-- C8: importing a file produced by the JSON export of a playlist `p`
reconstructs exactly `p`'s song sequence, in order. -/
theorem c8_json_roundtrip (p : Playlist) (fallbackName now : String) :
    (importJson (exportJson p) fallbackName now).songs = p.songs := by
  show jGetSongs (playlistToJson p) = p.songs
  cases p with
  | mk n s c m =>
    show (s.map songToJson).map songOfJson = s
    exact map_song_roundtrip s

/-! ## CSV import -/

/-- Substring test on character lists, modelling `String.prototype.includes`. -/
def listContainsSub (pat : List Char) : List Char → Bool
  | [] => pat.isEmpty
  | c :: rest => pat.isPrefixOf (c :: rest) || listContainsSub pat rest

/-- `Array.prototype.findIndex` (auxiliary, carrying the running index):
`-1` when no element satisfies the predicate. -/
def jsFindIndexAux (p : String → Bool) : List String → Nat → Int
  | [], _ => -1
  | x :: xs, i => if p x then (i : Int) else jsFindIndexAux p xs (i + 1)

/-- `Array.prototype.findIndex`. -/
def jsFindIndex (p : String → Bool) (l : List String) : Int :=
  jsFindIndexAux p l 0

/-- `header.findIndex(h => h.toLowerCase().includes(key))`
(index.ts lines 133-137). -/
def headerIdx (header : List String) (key : String) : Int :=
  jsFindIndex (fun h => listContainsSub key.data (jsToLower h).data) header

/-- `content.split('\n').filter(line => line.trim())` (index.ts line 126). -/
def csvLines (content : String) : List String :=
  (jsSplitChar '\n' content).filter fun l => jsTrim l != ""

/-- Outcome of processing one CSV data line (index.ts lines 146-157):
skipped without a song, a song, or a thrown `TypeError` (accessing an
out-of-range duration column). -/
inductive CsvLineOut where
  | skipped
  | thrown
  | song (s : Song)
deriving DecidableEq, Repr

/-- The song object literal of index.ts lines 150-155, given the split
line and the already-evaluated duration field. -/
def csvSongFields (m t a : Int) (parts : List String) (dur : Option String) : Song :=
  { videoId := if m ≥ 0 then jsTrim (parts.getD m.toNat "") else "",
    title := if t ≥ 0 then jsTrim (parts.getD t.toNat "")
             else jsOr (jsTrim (parts.getD 1 "")) "",
    artist := if a ≥ 0 then jsTrim (parts.getD a.toNat "")
              else jsOr (jsTrim (parts.getD 2 "")) "Unknown",
    album := none,
    duration := dur }

/-- One iteration of the CSV data-line loop (index.ts lines 146-157): the
line is split on commas; the guard compares the field count against the
highest of the mediaid/title/artists indices only; a detected duration
column beyond the field count makes `parts[durationIdx].trim()` throw. -/
def csvSongLine (m t a d : Int) (line : String) : CsvLineOut :=
  let parts := jsSplitChar ',' line
  if (parts.length : Int) > max m (max t a) then
    if d ≥ 0 then
      match parts.get? d.toNat with
      | some f => CsvLineOut.song (csvSongFields m t a parts (some (jsTrim f)))
      | none => CsvLineOut.thrown
    else CsvLineOut.song (csvSongFields m t a parts none)
  else CsvLineOut.skipped

/-- The CSV data-line loop: collect songs, propagating a thrown error. -/
def csvCollect (m t a d : Int) : List String → Except String (List Song)
  | [] => .ok []
  | line :: rest =>
    match csvSongLine m t a d line with
    | .thrown => .error "TypeError: Cannot read properties of undefined"
    | .skipped => csvCollect m t a d rest
    | .song s =>
      match csvCollect m t a d rest with
      | .error e => .error e
      | .ok ss => .ok (s :: ss)

/-- The `.csv` branch of `import-playlist-file` (index.ts lines 125-164),
up to and including building the in-memory playlist. `fallbackName` is
`path.basename(filePath, ext)`. A `none` playlist name (playlistname column
detected but missing on the first data row) throws at the later
`playlist.name.replace` (index.ts line 195), after the song loop ran. -/
def importCsv (content fallbackName now : String) : Except String Playlist :=
  match csvLines content with
  | [] => .error "Empty CSV file"
  | l0 :: rest =>
    let header := jsSplitChar ',' l0
    let mIdx := headerIdx header "mediaid"
    let tIdx := headerIdx header "title"
    let aIdx := headerIdx header "artists"
    let pIdx := headerIdx header "playlistname"
    let dIdx := headerIdx header "duration"
    let nameOpt : Option String :=
      match rest.head? with
      | some l1 =>
        if pIdx ≥ 0 then (jsSplitChar ',' l1).get? pIdx.toNat else some fallbackName
      | none => some fallbackName
    match csvCollect mIdx tIdx aIdx dIdx rest with
    | .error e => .error e
    | .ok songs =>
      match nameOpt with
      | none => .error "TypeError: Cannot read properties of undefined"
      | some n => .ok { name := n, songs := songs, created := now, modified := now }

/-- The save step every successful import ends with (index.ts lines
195-204): refresh `modified`/`created` as in `save-playlist` and overwrite
the derived file. -/
def importSave (pl : Playlist) (now : String) (st : Store) : IpcResult × Store :=
  (⟨true, "Playlist \"" ++ pl.name ++ "\" imported with "
      ++ toString pl.songs.length ++ " songs"⟩,
   storeInsert (importFileName pl.name) (playlistToJson (savedRecord pl now)) st)

/-- The whole `.csv` import call, at the store level: the `catch` and the
early returns surface as a failure result with the store untouched. -/
def importCsvFile (content fallbackName now : String) (st : Store) :
    IpcResult × Store :=
  match importCsv content fallbackName now with
  | .error m => (⟨false, m⟩, st)
  | .ok pl => importSave pl now st

/-- C4 counterexample: with header `mediaid,title,artists,x,duration` the
highest detected column index over all five detected columns is 4
(duration), and the data line `a,b,c` has fewer fields than that — yet it
is not silently skipped: it throws, failing the whole import, so no line is
processed. -/
theorem c4_counterexample :
    importCsv "mediaid,title,artists,x,duration\na,b,c" "fallback" "now"
      = Except.error "TypeError: Cannot read properties of undefined" ∧
    ((jsSplitChar ',' "a,b,c").length : Int) <
      max (headerIdx (jsSplitChar ',' "mediaid,title,artists,x,duration") "mediaid")
        (max (headerIdx (jsSplitChar ',' "mediaid,title,artists,x,duration") "title")
          (max (headerIdx (jsSplitChar ',' "mediaid,title,artists,x,duration") "artists")
            (max (headerIdx (jsSplitChar ',' "mediaid,title,artists,x,duration") "playlistname")
              (headerIdx (jsSplitChar ',' "mediaid,title,artists,x,duration") "duration")))) := by
  exact ⟨rfl, by decide⟩

/-- C4 (amended): a CSV data line is silently skipped (no song, no error)
exactly when its comma-separated field count is at most the highest index
among the detected mediaid/title/artists columns only; a line passing that
guard but shorter than a detected duration column index instead throws,
failing the import. -/
theorem c4_skip_iff (m t a d : Int) (line : String) :
    csvSongLine m t a d line = CsvLineOut.skipped ↔
      ((jsSplitChar ',' line).length : Int) ≤ max m (max t a) := by
  by_cases h : ((jsSplitChar ',' line).length : Int) > max m (max t a)
  · have hnot : ¬ (((jsSplitChar ',' line).length : Int) ≤ max m (max t a)) :=
      not_le.mpr h
    simp only [csvSongLine, if_pos h, hnot, iff_false]
    by_cases hd : d ≥ 0
    · rw [if_pos hd]
      cases hget : (jsSplitChar ',' line).get? d.toNat <;> simp [hget]
    · rw [if_neg hd]
      simp
  · have hle := not_lt.mp h
    simp only [csvSongLine, if_neg h]
    simp [hle]

/-- C5 counterexample: with header `mediaid,title` (no artists and no
duration column), the data line `id,song,someone` yields the artist
`"someone"` (the third field), not `"Unknown"`. -/
theorem c5_counterexample :
    importCsv "mediaid,title\nid,song,someone" "fallback" "now"
      = Except.ok ⟨"fallback", [⟨"id", "song", "someone", none, none⟩], "now", "now"⟩ ∧
    ("someone" : String) ≠ "Unknown" := by
  exact ⟨rfl, by decide⟩

/-- C5 (amended): for a CSV data line converted to a song, when no artists
column was detected the artist falls back to the line's trimmed third
field, or `"Unknown"` when that field is missing or trims to empty; and
when no duration column was detected the duration field is absent. -/
theorem c5_csv_defaults (m t a d : Int) (line : String) (s : Song)
    (h : csvSongLine m t a d line = CsvLineOut.song s) :
    (a < 0 → s.artist = jsOr (jsTrim ((jsSplitChar ',' line).getD 2 "")) "Unknown") ∧
    (d < 0 → s.duration = none) := by
  rw [csvSongLine] at h
  by_cases hg : ((jsSplitChar ',' line).length : Int) > max m (max t a)
  · rw [if_pos hg] at h
    by_cases hd : d ≥ 0
    · rw [if_pos hd] at h
      cases hget : (jsSplitChar ',' line).get? d.toNat with
      | some f =>
        rw [hget] at h
        injection h with h2
        constructor
        · intro ha
          rw [← h2]
          simp [csvSongFields, if_neg (by omega : ¬ a ≥ 0)]
        · intro hd2
          omega
      | none =>
        rw [hget] at h
        exact absurd h (by simp)
    · rw [if_neg hd] at h
      injection h with h2
      constructor
      · intro ha
        rw [← h2]
        simp [csvSongFields, if_neg (by omega : ¬ a ≥ 0)]
      · intro _
        rw [← h2]
        rfl
  · rw [if_neg hg] at h
    exact absurd h (by simp)

/-- C5 witness: the amended fallback evaluated on the concrete run of the
counterexample line. -/
theorem c5_witness :
    ((⟨"id", "song", "someone", none, none⟩ : Song).artist =
      jsOr (jsTrim ((jsSplitChar ',' "id,song,someone").getD 2 "")) "Unknown") ∧
    ((⟨"id", "song", "someone", none, none⟩ : Song).duration = none) := by
  have h := c5_csv_defaults 0 1 (-1) (-1) "id,song,someone"
    ⟨"id", "song", "someone", none, none⟩ (by decide)
  exact ⟨h.1 (by decide), h.2 (by decide)⟩

/-- C10: importing a `.csv` whose content has no non-blank lines returns
the failure result `"Empty CSV file"` and writes nothing to the playlists
directory. -/
theorem c10_empty_csv (content fallbackName now : String) (st : Store)
    (h : ∀ line ∈ jsSplitChar '\n' content, jsTrim line = "") :
    importCsvFile content fallbackName now st = (⟨false, "Empty CSV file"⟩, st) := by
  have hl : csvLines content = [] := by
    rw [csvLines, List.filter_eq_nil_iff]
    intro l hm
    rw [h l hm]
    decide
  rw [importCsvFile, importCsv, hl]

/-- C10 witness: whitespace-only CSV content. -/
theorem c10_witness :
    importCsvFile "\n \n" "fallback" "now" [] =
      (⟨false, "Empty CSV file"⟩, ([] : Store)) :=
  c10_empty_csv "\n \n" "fallback" "now" [] (by decide)

/-! ## TXT / M3U import -/

/-- `s.startsWith(pre)`. -/
def jsStartsWith (s pre : String) : Bool :=
  pre.data.isPrefixOf s.data

/-- `line.split(' - ')` on character lists: scanning left to right,
non-overlapping occurrences of the three-character separator cut the list. -/
def splitDash : List Char → List (List Char)
  | [] => [[]]
  | [a] => [[a]]
  | [a, b] => consHead a (splitDash [b])
  | a :: b :: c :: rest2 =>
    if a = ' ' ∧ b = '-' ∧ c = ' ' then [] :: splitDash rest2
    else consHead a (splitDash (b :: c :: rest2))

/-- The kept lines of a `.txt`/`.m3u` import (index.ts lines 166-169):
non-blank after trimming and not starting with `#`; the original,
untrimmed line is what gets parsed further. -/
def txtLines (content : String) : List String :=
  (jsSplitChar '\n' content).filter fun l =>
    jsTrim l != "" && !(jsStartsWith (jsTrim l) "#")

/-- `line.split(' - ')` as strings. -/
def txtParts (line : String) : List String :=
  (splitDash line.data).map fun l => (⟨l⟩ : String)

/-- One line of a `.txt`/`.m3u` import (index.ts lines 173-187). -/
def txtSong (line : String) : Song :=
  if (txtParts line).length ≥ 2 then
    { videoId := "", title := jsTrim ((txtParts line).getD 1 ""),
      artist := jsTrim ((txtParts line).getD 0 "") }
  else
    { videoId := jsTrim line, title := jsTrim line, artist := "Unknown" }

/-- The `.txt`/`.m3u` branch of `import-playlist-file`
(index.ts lines 165-190). -/
def importTxt (content fallbackName now : String) : Playlist :=
  { name := fallbackName, songs := (txtLines content).map txtSong,
    created := now, modified := now }

/-- Whether the scan of `split(' - ')` finds an occurrence of the separator
anywhere in the list. -/
def hasSepL : List Char → Bool
  | [] => false
  | [_] => false
  | [_, _] => false
  | a :: b :: c :: rest =>
    if a = ' ' ∧ b = '-' ∧ c = ' ' then true else hasSepL (b :: c :: rest)

/-- Whether the list ends in `' '` followed by `'-'` — the only way a
separator occurrence can straddle the boundary between a prefix and an
explicitly appended separator. -/
def endsSpaceDash (l : List Char) : Bool :=
  [' ', '-'].isSuffixOf l

theorem consHead_ne_nil (c : Char) (l : List (List Char)) : consHead c l ≠ [] := by
  cases l <;> simp [consHead]

theorem splitDash_ne_nil (l : List Char) : splitDash l ≠ [] := by
  match l with
  | [] => simp [splitDash]
  | [a] => simp [splitDash]
  | [a, b] => exact consHead_ne_nil _ _
  | a :: b :: c :: r =>
    show (if a = ' ' ∧ b = '-' ∧ c = ' '
        then [] :: splitDash r
        else consHead a (splitDash (b :: c :: r))) ≠ []
    by_cases h : a = ' ' ∧ b = '-' ∧ c = ' '
    · rw [if_pos h]
      simp
    · rw [if_neg h]
      exact consHead_ne_nil _ _

theorem hasSepL_tail (a : Char) (l : List Char) (h : hasSepL (a :: l) = false) :
    hasSepL l = false := by
  match l with
  | [] => rfl
  | [x] => rfl
  | x :: y :: r =>
    have h2 : (if a = ' ' ∧ x = '-' ∧ y = ' '
        then true else hasSepL (x :: y :: r)) = false := h
    by_cases hc : a = ' ' ∧ x = '-' ∧ y = ' '
    · rw [if_pos hc] at h2
      exact absurd h2 (by simp)
    · rw [if_neg hc] at h2
      exact h2

theorem endsSpaceDash_tail (a : Char) (l : List Char)
    (h : endsSpaceDash (a :: l) = false) : endsSpaceDash l = false := by
  cases hb : endsSpaceDash l with
  | false => rfl
  | true =>
    exfalso
    have hsuff : [' ', '-'] <:+ l := by
      have := hb
      rw [endsSpaceDash, List.isSuffixOf_iff_suffix] at this
      exact this
    have : endsSpaceDash (a :: l) = true := by
      rw [endsSpaceDash, List.isSuffixOf_iff_suffix]
      exact hsuff.trans (List.suffix_cons a l)
    rw [this] at h
    exact absurd h (by simp)

/-- A scan that finds no separator leaves the whole list as the single
group. -/
theorem splitDash_eq_single (l : List Char) (h : hasSepL l = false) :
    splitDash l = [l] := by
  induction l with
  | nil => rfl
  | cons a l2 ih =>
    match l2, ih with
    | [], _ => rfl
    | [x], _ => rfl
    | x :: y :: r, ih =>
      have h2 : (if a = ' ' ∧ x = '-' ∧ y = ' '
          then true else hasSepL (x :: y :: r)) = false := h
      by_cases hc : a = ' ' ∧ x = '-' ∧ y = ' '
      · rw [if_pos hc] at h2
        exact absurd h2 (by simp)
      · rw [if_neg hc] at h2
        show (if a = ' ' ∧ x = '-' ∧ y = ' '
            then [] :: splitDash r
            else consHead a (splitDash (x :: y :: r))) = [a :: x :: y :: r]
        rw [if_neg hc, ih h2]
        rfl

/-- Splitting a list whose first separator occurrence sits exactly after
`pre`: the scan finds no occurrence inside `pre` (`hasSepL`) and none
straddling the boundary (`endsSpaceDash`), so `pre` is the first group and
the scan continues on `rest` alone.  For any line containing the separator,
taking `pre` to be the text before the first occurrence satisfies both
hypotheses. -/
theorem splitDash_first (pre rest : List Char) (h1 : hasSepL pre = false)
    (h2 : endsSpaceDash pre = false) :
    splitDash (pre ++ ' ' :: '-' :: ' ' :: rest) = pre :: splitDash rest := by
  induction pre with
  | nil => rfl
  | cons a l2 ih =>
    have h1t : hasSepL l2 = false := hasSepL_tail a l2 h1
    have h2t : endsSpaceDash l2 = false := endsSpaceDash_tail a l2 h2
    have ih2 := ih h1t h2t
    rcases l2 with - | ⟨x, l3⟩
    · show (if a = ' ' ∧ (' ' : Char) = '-' ∧ ('-' : Char) = ' '
          then [] :: splitDash (' ' :: rest)
          else consHead a (splitDash (' ' :: '-' :: ' ' :: rest)))
        = [a] :: splitDash rest
      rw [if_neg fun hh => absurd hh.2.1 (by decide)]
      simp only [List.nil_append] at ih2
      rw [ih2]
      rfl
    · rcases l3 with - | ⟨y, l4⟩
      · show (if a = ' ' ∧ x = '-' ∧ (' ' : Char) = ' '
            then [] :: splitDash ('-' :: ' ' :: rest)
            else consHead a (splitDash (x :: ' ' :: '-' :: ' ' :: rest)))
          = [a, x] :: splitDash rest
        rw [if_neg ?hne]
        case hne =>
          rintro ⟨ha', hx', -⟩
          subst ha'
          subst hx'
          exact absurd h2 (by decide)
        simp only [List.cons_append, List.nil_append] at ih2
        rw [ih2]
        rfl
      · show (if a = ' ' ∧ x = '-' ∧ y = ' '
            then [] :: splitDash (l4 ++ ' ' :: '-' :: ' ' :: rest)
            else consHead a (splitDash (x :: y :: (l4 ++ ' ' :: '-' :: ' ' :: rest))))
          = (a :: x :: y :: l4) :: splitDash rest
        rw [if_neg ?hne2]
        case hne2 =>
          rintro ⟨ha', hx', hy'⟩
          subst ha'
          subst hx'
          subst hy'
          have hbad : hasSepL (' ' :: '-' :: ' ' :: l4) = true := by
            show (if (' ' : Char) = ' ' ∧ ('-' : Char) = '-' ∧ (' ' : Char) = ' '
                then true else hasSepL ('-' :: ' ' :: l4)) = true
            rw [if_pos ⟨rfl, rfl, rfl⟩]
          rw [hbad] at h1
          exact absurd h1 (by simp)
        simp only [List.cons_append] at ih2
        rw [ih2]
        rfl

/-- The general separator rule of `txtSong`: when the line decomposes as
`pre ++ " - " ++ post` at the first separator occurrence (no occurrence
inside `pre`, none straddling the boundary), the artist is the trimmed
`pre` and the title is the trimmed first group of `post` — the text up to
the next occurrence, or all of `post` when there is none. -/
theorem txtSong_sep_head (pre post : String) (h1 : hasSepL pre.data = false)
    (h2 : endsSpaceDash pre.data = false) :
    txtSong (pre ++ " - " ++ post)
      = ⟨"", jsTrim ((txtParts post).getD 0 ""), jsTrim pre, none, none⟩ := by
  have hdata : (pre ++ " - " ++ post).data
      = pre.data ++ ' ' :: '-' :: ' ' :: post.data := by
    have hsep : (" - " : String).data = [' ', '-', ' '] := rfl
    simp [String.data_append, hsep]
  have hsplit : splitDash (pre ++ " - " ++ post).data
      = pre.data :: splitDash post.data := by
    rw [hdata, splitDash_first _ _ h1 h2]
  obtain ⟨g, gs, hg⟩ : ∃ g gs, splitDash post.data = g :: gs := by
    cases hsp : splitDash post.data with
    | nil => exact absurd hsp (splitDash_ne_nil _)
    | cons g gs => exact ⟨g, gs, rfl⟩
  simp only [txtSong, txtParts]
  rw [hsplit, hg]
  rw [if_pos (by simp)]
  simp [List.getD_cons_succ, List.getD_cons_zero]

theorem splitDash_sep_append (l rest : List Char) (h : ('-' : Char) ∉ l) :
    splitDash (l ++ ' ' :: '-' :: ' ' :: rest) = l :: splitDash rest := by
  induction l with
  | nil => rfl
  | cons a l2 ih =>
    have ha : ('-' : Char) ≠ a ∧ ('-' : Char) ∉ l2 := by
      rw [List.mem_cons] at h
      push_neg at h
      exact h
    have ih2 := ih ha.2
    rcases l2 with - | ⟨x, l3⟩
    · show (if a = ' ' ∧ (' ' : Char) = '-' ∧ ('-' : Char) = ' '
          then [] :: splitDash (' ' :: rest)
          else consHead a (splitDash (' ' :: '-' :: ' ' :: rest)))
        = [a] :: splitDash rest
      rw [if_neg fun hh => absurd hh.2.1 (by decide)]
      simp only [List.nil_append] at ih2
      rw [ih2]
      rfl
    · have hx : x ≠ '-' := by
        intro e
        exact ha.2 (by rw [e]; exact List.mem_cons_self _ _)
      rcases l3 with - | ⟨y, l4⟩
      · show (if a = ' ' ∧ x = '-' ∧ (' ' : Char) = ' '
            then [] :: splitDash ('-' :: ' ' :: rest)
            else consHead a (splitDash (x :: ' ' :: '-' :: ' ' :: rest)))
          = [a, x] :: splitDash rest
        rw [if_neg fun hh => hx hh.2.1]
        simp only [List.cons_append, List.nil_append] at ih2
        rw [ih2]
        rfl
      · show (if a = ' ' ∧ x = '-' ∧ y = ' '
            then [] :: splitDash (l4 ++ ' ' :: '-' :: ' ' :: rest)
            else consHead a (splitDash (x :: y :: (l4 ++ ' ' :: '-' :: ' ' :: rest))))
          = (a :: x :: y :: l4) :: splitDash rest
        rw [if_neg fun hh => hx hh.2.1]
        simp only [List.cons_append] at ih2
        rw [ih2]
        rfl

/-- C6 counterexample: the line `"a - b - c"` yields the title `"b"` (the
segment between the first and second separators), not the text `"b - c"`
after the first occurrence; and the whole-line fallback trims, so the line
`" q "` yields videoId `"q"`, not the whole line. -/
theorem c6_counterexample :
    txtSong "a - b - c" = ⟨"", "b", "a", none, none⟩ ∧
    ("b" : String) ≠ "b - c" ∧
    txtSong " q " = ⟨"q", "q", "Unknown", none, none⟩ ∧
    ("q" : String) ≠ " q " := by
  exact ⟨rfl, by decide, rfl, by decide⟩

/-- C6 (amended): for every line containing the separator, decomposed as
`pre ++ " - " ++ post` at its first occurrence (no occurrence inside `pre`
and none straddling the boundary), the song is artist = trimmed `pre`,
title = trimmed first group of `post` (the text up to the second
occurrence, or all of `post` — i.e. to the end of the line — when there is
no second occurrence), and an empty videoId; a line without the separator
is trimmed and used as both videoId and title with artist `"Unknown"`; the
two example lines behave as the claim states. -/
theorem c6_txt_parsing :
    (∀ pre post : String, hasSepL pre.data = false →
      endsSpaceDash pre.data = false →
      txtSong (pre ++ " - " ++ post)
        = ⟨"", jsTrim ((txtParts post).getD 0 ""), jsTrim pre, none, none⟩) ∧
    (∀ pre post : String, hasSepL pre.data = false →
      endsSpaceDash pre.data = false → hasSepL post.data = false →
      txtSong (pre ++ " - " ++ post)
        = ⟨"", jsTrim post, jsTrim pre, none, none⟩) ∧
    (∀ a b c : String, ('-' : Char) ∉ a.data → ('-' : Char) ∉ b.data →
      txtSong (a ++ " - " ++ b ++ " - " ++ c) =
        ⟨"", jsTrim b, jsTrim a, none, none⟩) ∧
    (∀ line : String, (splitDash line.data).length < 2 →
      txtSong line = ⟨jsTrim line, jsTrim line, "Unknown", none, none⟩) ∧
    (importTxt "Daft Punk - One More Time\nxyz" "fallback" "now").songs =
      [⟨"", "One More Time", "Daft Punk", none, none⟩,
       ⟨"xyz", "xyz", "Unknown", none, none⟩] := by
  refine ⟨txtSong_sep_head, ?_, ?_, ?_, by rfl⟩
  · intro pre post h1 h2 h3
    have ht : (txtParts post).getD 0 "" = post := by
      rw [txtParts, splitDash_eq_single post.data h3]
      rfl
    rw [txtSong_sep_head pre post h1 h2, ht]
  · intro a b c ha hb
    have hdata : (a ++ " - " ++ b ++ " - " ++ c).data
        = a.data ++ ' ' :: '-' :: ' ' :: (b.data ++ ' ' :: '-' :: ' ' :: c.data) := by
      have hsep : (" - " : String).data = [' ', '-', ' '] := rfl
      simp [String.data_append, hsep]
    have hsplit : splitDash (a ++ " - " ++ b ++ " - " ++ c).data
        = a.data :: b.data :: splitDash c.data := by
      rw [hdata, splitDash_sep_append _ _ ha, splitDash_sep_append _ _ hb]
    rw [txtSong, txtParts, hsplit]
    rw [if_pos (by simp)]
    rfl
  · intro line h
    rw [txtSong, if_neg]
    rw [txtParts, List.length_map]
    omega

/-- C6 witness: the general separator rule at a hyphen-containing artist
with a second separator, the single-separator rule with the title running
to the end of the line, the two-separator rule, and the fallback at a
plain line. -/
theorem c6_witness :
    txtSong ("Jay-Z" ++ " - " ++ "99 Problems - Live")
      = ⟨"", jsTrim ((txtParts "99 Problems - Live").getD 0 ""),
          jsTrim "Jay-Z", none, none⟩ ∧
    txtSong ("Jay-Z" ++ " - " ++ "99 Problems")
      = ⟨"", jsTrim "99 Problems", jsTrim "Jay-Z", none, none⟩ ∧
    txtSong ("x" ++ " - " ++ "y" ++ " - " ++ "z - w")
      = ⟨"", jsTrim "y", jsTrim "x", none, none⟩ ∧
    txtSong "plain" = ⟨jsTrim "plain", jsTrim "plain", "Unknown", none, none⟩ :=
  ⟨c6_txt_parsing.1 "Jay-Z" "99 Problems - Live" (by decide) (by decide),
   c6_txt_parsing.2.1 "Jay-Z" "99 Problems" (by decide) (by decide) (by decide),
   c6_txt_parsing.2.2.1 "x" "y" "z - w" (by decide) (by decide),
   c6_txt_parsing.2.2.2.1 "plain" (by decide)⟩

/-! ## M3U export -/

/-- The `#EXTINF` line for one song (index.ts line 240): a falsy (absent or
empty) duration renders as `-1`. -/
def m3uInfoLine (s : Song) : String :=
  "#EXTINF:" ++ jsOr (s.duration.getD "") "-1" ++ "," ++ s.artist ++ " - " ++ s.title

/-- The `m3u` branch of `export-playlist-file` (index.ts lines 237-241):
the header plus, per song, a two-line entry, all joined with newlines. -/
def exportM3u (p : Playlist) : String :=
  "#EXTM3U\n" ++ joinSep "\n" (p.songs.map fun s => m3uInfoLine s ++ "\n" ++ s.videoId)

theorem joinSep_cons_ne (sep x : String) (l : List String) (h : l ≠ []) :
    joinSep sep (x :: l) = x ++ sep ++ joinSep sep l := by
  match l with
  | [] => exact absurd rfl h
  | y :: rest => rfl

theorem joinSep_pair_map {α : Type} (sep : String) (f g : α → String) (l : List α) :
    joinSep sep (l.flatMap fun e => [f e, g e])
      = joinSep sep (l.map fun e => f e ++ sep ++ g e) := by
  induction l with
  | nil => rfl
  | cons s rest ih =>
    match rest with
    | [] => rfl
    | s2 :: rest2 =>
      have h1 : ((s2 :: rest2).flatMap fun e => [f e, g e]) ≠ [] := by simp
      have h2 : ((s2 :: rest2).map fun e => f e ++ sep ++ g e) ≠ [] := by simp
      show joinSep sep (f s :: g s :: (s2 :: rest2).flatMap fun e => [f e, g e])
        = joinSep sep ((f s ++ sep ++ g s) :: (s2 :: rest2).map fun e => f e ++ sep ++ g e)
      rw [joinSep_cons_ne sep (f s ++ sep ++ g s) _ h2]
      rw [show joinSep sep (f s :: g s :: (s2 :: rest2).flatMap fun e => [f e, g e])
          = f s ++ sep ++ joinSep sep (g s :: (s2 :: rest2).flatMap fun e => [f e, g e])
        from rfl]
      rw [joinSep_cons_ne sep (g s) _ h1]
      rw [ih]
      simp [String.append_assoc]

/-- C7: M3U export is the `#EXTM3U` line followed, for each song in order,
by the pair of lines `#EXTINF:<duration-or--1>,<artist> - <title>` and the
bare videoId; the single-song example renders literally as the claim
states. -/
theorem c7_m3u_format :
    (∀ p : Playlist, p.songs ≠ [] →
      exportM3u p = joinSep "\n"
        ("#EXTM3U" :: p.songs.flatMap fun s => [m3uInfoLine s, s.videoId])) ∧
    exportM3u ⟨"My Playlist", [⟨"abc123", "Song", "Artist", none, some "125"⟩],
        "created", "modified"⟩
      = "#EXTM3U\n#EXTINF:125,Artist - Song\nabc123" := by
  constructor
  · intro p hne
    match hp : p.songs with
    | [] => exact absurd hp hne
    | s :: rest =>
      rw [exportM3u, hp]
      have h1 : ((s :: rest).flatMap fun e => [m3uInfoLine e, e.videoId]) ≠ [] := by
        simp
      rw [joinSep_cons_ne "\n" "#EXTM3U" _ h1]
      rw [joinSep_pair_map "\n" m3uInfoLine (fun e => e.videoId) (s :: rest)]
      rfl
  · rfl

/-- C7 witness: the pair-of-lines structure at a concrete two-song
playlist. -/
theorem c7_witness :
    exportM3u ⟨"P", [⟨"v1", "T1", "A1", none, none⟩,
        ⟨"v2", "T2", "A2", none, some "9"⟩], "c", "m"⟩
      = joinSep "\n" ("#EXTM3U" ::
          ([⟨"v1", "T1", "A1", none, none⟩,
            ⟨"v2", "T2", "A2", none, some "9"⟩] : List Song).flatMap
            fun s => [m3uInfoLine s, s.videoId]) :=
  c7_m3u_format.1 _ (by decide)

end LocalPlaylistManager
